import Mathlib

/-!
Verification of the acton framed multi-record container format.

The on-wire format (from `docs/protobuf_spec.ipynb`): each record is written
as an 8-byte little-endian unsigned length followed by that many payload
bytes; an optional metadata record is framed identically and written first.
Reading is the inverse loop: read 8 bytes, stop if none, unpack the length,
read that many payload bytes, repeat.

Bytes are modelled as `List Nat` with each element a byte value; lengths are
`Nat` with the 64-bit bound made explicit where the 8-byte prefix matters.
-/

namespace Acton

/-- Little-endian value of a byte list: the first byte is least significant.
This is the reading direction of `struct.unpack` with format `<Q` in the
notebook's read loop. -/
def leVal : List Nat → Nat
  | [] => 0
  | b :: bs => b + 256 * leVal bs

/-- The low `k` bytes of `n`, least significant first: the writing direction
of `struct.pack` with format `<Q` (with `k = 8`). -/
def toLEBytes : Nat → Nat → List Nat
  | 0, _ => []
  | k + 1, n => n % 256 :: toLEBytes k (n / 256)

/-- `struct.pack('<Q', n)`: the length rendered as a fixed 8-byte
little-endian unsigned integer, as in the notebook's write loop. -/
def length_prefix (n : Nat) : List Nat :=
  toLEBytes 8 n

/-- One frame: `length_prefix (len payload) || payload`, exactly the two
`proto_file.write` calls of the notebook's multi-proto write loop. -/
def encode_frame (payload : List Nat) : List Nat :=
  length_prefix payload.length ++ payload

/-- The bytes produced by writing each record of `rs` as one frame, in
order: the notebook's `for proto in protos` write loop. -/
def writeFrames (rs : List (List Nat)) : List Nat :=
  (rs.map encode_frame).flatten

/-- The full container: the optional metadata frame first (framed exactly
like a record, per the notebook), then the record frames in order. -/
def writeContainer (m : Option (List Nat)) (rs : List (List Nat)) : List Nat :=
  (match m with
   | some md => encode_frame md
   | none => []) ++ writeFrames rs

/-- Modelled from the spec: the error taxonomy of §7 (`TruncatedLength`,
`TruncatedPayload`, `MalformedLength`, `ProtocolViolation`); the notebook
code only documents the happy path, the spec names the failure results. -/
inductive ReadError
  | TruncatedLength
  | TruncatedPayload
  | MalformedLength
  | ProtocolViolation
deriving DecidableEq, Repr

/-- Modelled from the spec: `decode_length_prefix` of §4.1, the checked
counterpart of the notebook's `struct.unpack('<Q', length)`, which requires
a buffer of exactly 8 bytes and otherwise raises (spec: `MalformedLength`
for a length-prefix buffer not exactly 8 bytes). -/
def decode_length_prefix (b : List Nat) : Except ReadError Nat :=
  if b.length ≠ 8 then .error .MalformedLength
  else .ok (leVal b)

/-- Modelled from the spec: `read_payload` of §4.1 — read exactly `len`
bytes from the source, failing with `TruncatedPayload` if fewer are
available. Returns the payload and the remaining source. -/
def read_payload (source : List Nat) (len : Nat) : Except ReadError (List Nat × List Nat) :=
  if source.length < len then .error .TruncatedPayload
  else .ok (source.take len, source.drop len)

/-- Modelled from the spec: one step of the reader contract (`read_record`
of §4.2, with the source position made explicit). Implements the
end-of-stream detection algorithm of §4.2 over the notebook's read loop:
0 bytes at a length-prefix position is clean end-of-stream (`none`), 1–7
bytes is `TruncatedLength`, otherwise decode the length and read that many
payload bytes. -/
def read_record (src : List Nat) : Except ReadError (Option (List Nat) × List Nat) :=
  if src.length = 0 then .ok (none, src)
  else if src.length < 8 then .error .TruncatedLength
  else
    match decode_length_prefix (src.take 8) with
    | .error e => .error e
    | .ok len =>
      match read_payload (src.drop 8) len with
      | .error e => .error e
      | .ok (payload, rest) => .ok (some payload, rest)

/-- The notebook's read-until-EOF loop: read an 8-byte length, stop when
zero bytes remain, otherwise unpack it, read that many payload bytes and
repeat; shortfalls surface as the spec's `TruncatedLength` /
`TruncatedPayload` errors. -/
def readAllRecords (src : List Nat) : Except ReadError (List (List Nat)) :=
  if _h0 : src.length = 0 then .ok []
  else if _h8 : src.length < 8 then .error .TruncatedLength
  else
    match decode_length_prefix (src.take 8) with
    | .error e => .error e
    | .ok len =>
      if _hp : (src.drop 8).length < len then .error .TruncatedPayload
      else
        match readAllRecords ((src.drop 8).drop len) with
        | .error e => .error e
        | .ok rs => .ok ((src.drop 8).take len :: rs)
termination_by src.length
decreasing_by simp only [List.length_drop]; omega

/-- Modelled from the spec: the reader contract of §4.2 run to completion —
`open_for_read` with `expect_metadata`, one `read_metadata` frame when
expected (reading metadata from a source with no frame at all is an API
misuse, `ProtocolViolation`), then `read_record` until clean end-of-stream.
Returns the metadata (if expected) and the records in order. -/
def readContainer (src : List Nat) (expect_metadata : Bool) :
    Except ReadError (Option (List Nat) × List (List Nat)) :=
  if expect_metadata then
    match read_record src with
    | .error e => .error e
    | .ok (none, _) => .error .ProtocolViolation
    | .ok (some md, rest) =>
      match readAllRecords rest with
      | .error e => .error e
      | .ok rs => .ok (some md, rs)
  else
    match readAllRecords src with
    | .error e => .error e
    | .ok rs => .ok (none, rs)

/-- Modelled from the spec: the result of the `n`-th further `read_record`
call after a first one on `src` (call 0 is `read_record src` itself); each
successful call continues from the source position it returned. -/
def nthRead (src : List Nat) : Nat → Except ReadError (Option (List Nat) × List Nat)
  | 0 => read_record src
  | n + 1 =>
    match read_record src with
    | .error e => .error e
    | .ok (_, rest) => nthRead rest n

/-- Modelled from the spec: the writer-side state of §4.2 — the bytes
written so far, whether metadata has been written, whether any record has
been written, and whether the handle is closed. -/
structure WriteHandle where
  buf : List Nat
  metaWritten : Bool
  recordWritten : Bool
  closed : Bool
deriving DecidableEq, Repr

/-- Modelled from the spec: `open_for_write` — a fresh handle over an empty
sink. -/
def open_for_write : WriteHandle :=
  ⟨[], false, false, false⟩

/-- Modelled from the spec: `write_metadata` — frames the metadata bytes;
must be called at most once and before any record, otherwise
`ProtocolViolation` (and the sink is left untouched: the failing call
returns no new handle). -/
def write_metadata (h : WriteHandle) (m : List Nat) : Except ReadError WriteHandle :=
  if h.closed then .error .ProtocolViolation
  else if h.metaWritten || h.recordWritten then .error .ProtocolViolation
  else .ok { h with buf := h.buf ++ encode_frame m, metaWritten := true }

/-- Modelled from the spec: `write_record` — frames one record; any number
of calls is allowed while the handle is open. -/
def write_record (h : WriteHandle) (r : List Nat) : Except ReadError WriteHandle :=
  if h.closed then .error .ProtocolViolation
  else .ok { h with buf := h.buf ++ encode_frame r, recordWritten := true }

/-- Modelled from the spec: `close` — finalizes the handle; no further
writes are permitted afterwards. -/
def close (h : WriteHandle) : WriteHandle :=
  { h with closed := true }

/-- Modelled from the spec: write each record of `rs` in order through
`write_record`. -/
def writeRecords (h : WriteHandle) : List (List Nat) → Except ReadError WriteHandle
  | [] => .ok h
  | r :: rs =>
    match write_record h r with
    | .error e => .error e
    | .ok h' => writeRecords h' rs

/-- Modelled from the spec: a complete writer session — open an empty sink,
optionally write the metadata, write the records in order, close, and
return the bytes of the sink. -/
def runWrites (m : Option (List Nat)) (rs : List (List Nat)) : Except ReadError (List Nat) :=
  match (match m with
         | none => Except.ok open_for_write
         | some md => write_metadata open_for_write md) with
  | .error e => .error e
  | .ok h =>
    match writeRecords h rs with
    | .error e => .error e
    | .ok h' => .ok (close h').buf

/-- The byte offsets of the frame boundaries of a container holding the
frames of `rs`: 0, then each successive boundary shifted by the 8-byte
prefix plus the payload length of the frame before it. The total length of
the container is always a boundary. -/
def frameBoundaries : List (List Nat) → List Nat
  | [] => [0]
  | r :: rs => 0 :: (frameBoundaries rs).map (fun b => 8 + r.length + b)

/-! ### Helper lemmas about the length prefix -/

theorem toLEBytes_length (k n : Nat) : (toLEBytes k n).length = k := by
  induction k generalizing n with
  | zero => rfl
  | succ k ih => simp [toLEBytes, ih]

theorem leVal_toLEBytes (k n : Nat) : leVal (toLEBytes k n) = n % 256 ^ k := by
  induction k generalizing n with
  | zero => simp [toLEBytes, leVal, Nat.mod_one]
  | succ k ih =>
    rw [toLEBytes, leVal, ih, pow_succ, mul_comm (256 ^ k) 256, Nat.mod_mul]

theorem lp_length (n : Nat) : ( length_prefix n).length = 8 :=
  toLEBytes_length 8 n

theorem leVal_lp (n : Nat) (h : n < 2 ^ 64) : leVal ( length_prefix n) = n := by
  have h64 : (256 : Nat) ^ 8 = 2 ^ 64 := by norm_num
  rw [ length_prefix, leVal_toLEBytes, h64, Nat.mod_eq_of_lt h]

theorem encode_frame_length (p : List Nat) : (encode_frame p).length = 8 + p.length := by
  simp [encode_frame, lp_length]

theorem encode_frame_take8 (p : List Nat) (xs : List Nat) :
    (encode_frame p ++ xs).take 8 = length_prefix p.length := by
  rw [encode_frame, List.append_assoc]
  have h8 : (8 : Nat) = ( length_prefix p.length).length := (lp_length p.length).symm
  rw [h8, List.take_left]

theorem encode_frame_drop8 (p : List Nat) (xs : List Nat) :
    (encode_frame p ++ xs).drop 8 = p ++ xs := by
  rw [encode_frame, List.append_assoc]
  have h8 : (8 : Nat) = ( length_prefix p.length).length := (lp_length p.length).symm
  rw [h8, List.drop_left]

theorem decode_lp (n : Nat) (h : n < 2 ^ 64) :
    decode_length_prefix ( length_prefix n) = .ok n := by
  rw [ decode_length_prefix, if_neg (by simp [lp_length]), leVal_lp n h]

theorem lp_take (n : Nat) (xs : List Nat) :
    (( length_prefix n) ++ xs).take 8 = length_prefix n := by
  have h8 : (8 : Nat) = ( length_prefix n).length := (lp_length n).symm
  rw [h8, List.take_left]

theorem lp_drop (n : Nat) (xs : List Nat) :
    (( length_prefix n) ++ xs).drop 8 = xs := by
  have h8 : (8 : Nat) = ( length_prefix n).length := (lp_length n).symm
  rw [h8, List.drop_left]

/-! ### Helper lemmas about reading back written frames -/

theorem readAllRecords_nil : readAllRecords [] = .ok [] := by
  rw [readAllRecords]; simp

theorem writeFrames_cons (r : List Nat) (rs : List (List Nat)) :
    writeFrames (r :: rs) = encode_frame r ++ writeFrames rs := by
  simp [writeFrames]

theorem readAllRecords_cons (r xs : List Nat) (h : r.length < 2 ^ 64) :
    readAllRecords (encode_frame r ++ xs) = (readAllRecords xs).map (fun l => r :: l) := by
  have hlen : (encode_frame r ++ xs).length = 8 + r.length + xs.length := by
    simp [encode_frame_length]
  rw [readAllRecords]
  rw [dif_neg (by omega), dif_neg (by omega)]
  simp only [encode_frame_take8, decode_lp _ h, encode_frame_drop8]
  rw [dif_neg (by simp)]
  rw [List.take_left, List.drop_left]
  cases readAllRecords xs <;> rfl

theorem readAllRecords_frames (rs : List (List Nat)) (h : ∀ r ∈ rs, r.length < 2 ^ 64) :
    readAllRecords (writeFrames rs) = .ok rs := by
  induction rs with
  | nil => simpa [writeFrames] using readAllRecords_nil
  | cons r rs ih =>
    rw [writeFrames_cons, readAllRecords_cons r _ (h r (by simp)),
      ih (fun x hx => h x (by simp [hx]))]
    rfl

theorem read_record_frame (r xs : List Nat) (h : r.length < 2 ^ 64) :
    read_record (encode_frame r ++ xs) = .ok (some r, xs) := by
  have hlen : (encode_frame r ++ xs).length = 8 + r.length + xs.length := by
    simp [encode_frame_length]
  rw [read_record, if_neg (by omega), if_neg (by omega)]
  simp only [encode_frame_take8, decode_lp _ h, encode_frame_drop8, read_payload]
  rw [if_neg (by simp)]
  rw [List.take_left, List.drop_left]

theorem readContainer_rt (m : Option (List Nat)) (rs : List (List Nat))
    (hm : ∀ md ∈ m, md.length < 2 ^ 64) (hr : ∀ r ∈ rs, r.length < 2 ^ 64) :
    readContainer (writeContainer m rs) m.isSome = .ok (m, rs) := by
  cases m with
  | none =>
    rw [writeContainer]
    simp only [Option.isSome_none, readContainer, Bool.false_eq_true, if_false,
      List.nil_append]
    rw [readAllRecords_frames rs hr]
  | some md =>
    rw [writeContainer]
    simp only [Option.isSome_some, readContainer, if_true]
    rw [read_record_frame md _ (hm md (by simp))]
    simp only []
    rw [readAllRecords_frames rs hr]

/-! ### Helper lemmas about truncated containers -/

theorem zero_mem_fb (rs : List (List Nat)) : (0 : Nat) ∈ frameBoundaries rs := by
  cases rs <;> simp [frameBoundaries]

theorem trunc_frames : ∀ (rs : List (List Nat)) (k : Nat),
    (∀ r ∈ rs, r.length < 2 ^ 64) →
    k < (writeFrames rs).length → k ∉ frameBoundaries rs →
    readAllRecords ((writeFrames rs).take k) = .error .TruncatedLength ∨
    readAllRecords ((writeFrames rs).take k) = .error .TruncatedPayload := by
  intro rs
  induction rs with
  | nil => intro k _ hk _; simp [writeFrames] at hk
  | cons r rs ih =>
    intro k hlen hk hb
    rw [writeFrames_cons] at hk ⊢
    simp only [frameBoundaries, List.mem_cons, List.mem_map, not_or, not_exists] at hb
    push_neg at hb
    obtain ⟨hk0, hbm⟩ := hb
    have hrl : r.length < 2 ^ 64 := hlen r (by simp)
    have hXlen : (encode_frame r ++ writeFrames rs).length
        = 8 + r.length + (writeFrames rs).length := by
      simp [encode_frame_length]
    rw [hXlen] at hk
    by_cases hA : k < 8
    · left
      have hL : ((encode_frame r ++ writeFrames rs).take k).length = k := by
        simp only [List.length_take, hXlen]; omega
      rw [readAllRecords, dif_neg (by omega), dif_pos (by omega)]
    · by_cases hB : k < 8 + r.length
      · right
        have hsplit : (encode_frame r ++ writeFrames rs).take k
            = ( length_prefix r.length) ++ (r ++ writeFrames rs).take (k - 8) := by
          rw [encode_frame, List.append_assoc, List.take_append_eq_append_take]
          congr 1
          exact List.take_of_length_le (by rw [lp_length]; omega)
        have hylen : ((r ++ writeFrames rs).take (k - 8)).length = k - 8 := by
          simp only [List.length_take, List.length_append]; omega
        have hLlen : ((( length_prefix r.length) ++ (r ++ writeFrames rs).take (k - 8))).length
            = k := by
          simp only [List.length_append, lp_length, hylen]; omega
        rw [hsplit, readAllRecords, dif_neg (by omega), dif_neg (by omega)]
        simp only [lp_take, decode_lp _ hrl, lp_drop]
        rw [dif_pos (by omega)]
      · have h0fb : (0 : Nat) ∈ frameBoundaries rs := zero_mem_fb rs
        have hkne : k ≠ 8 + r.length := fun hkeq => (hbm 0 h0fb) (by omega)
        have hsplit : (encode_frame r ++ writeFrames rs).take k
            = encode_frame r ++ (writeFrames rs).take (k - (8 + r.length)) := by
          rw [List.take_append_eq_append_take]
          congr 1
          exact List.take_of_length_le (by rw [encode_frame_length]; omega)
          rw [encode_frame_length]
        rw [hsplit, readAllRecords_cons r _ hrl]
        have hih := ih (k - (8 + r.length)) (fun x hx => hlen x (by simp [hx]))
          (by omega)
          (by
            intro hmem
            exact (hbm (k - (8 + r.length)) hmem) (by omega))
        rcases hih with h1 | h1
        · left; rw [h1]; rfl
        · right; rw [h1]; rfl

/-! ### Helper lemmas: the MalformedLength branch is unreachable via the stream
orchestration, which always hands `decode_length_prefix` exactly 8 bytes -/

theorem read_record_not_ml (src : List Nat) (e : ReadError)
    (h : read_record src = .error e) : e ≠ .MalformedLength := by
  rintro rfl
  rw [read_record] at h
  split_ifs at h with h0 h8
  · simp at h
  · have ht8 : (src.take 8).length = 8 := by
      simp only [List.length_take]; omega
    rw [ decode_length_prefix, if_neg (by simp [ht8])] at h
    simp only [ read_payload] at h
    split_ifs at h with hp
    simp at h

theorem readAllRecords_not_ml : ∀ (src : List Nat) (e : ReadError),
    readAllRecords src = .error e → e ≠ .MalformedLength := by
  intro src
  induction src using readAllRecords.induct with
  | case1 x h0 => intro e h; rw [readAllRecords, dif_pos h0] at h; simp at h
  | case2 x h0 h8 =>
    rintro e h rfl
    rw [readAllRecords, dif_neg h0, dif_pos h8] at h
    simp at h
  | case3 x h0 h8 e2 hdec =>
    intro e h
    have ht8 : (x.take 8).length = 8 := by simp only [List.length_take]; omega
    rw [ decode_length_prefix, if_neg (by simp [ht8])] at hdec
    simp at hdec
  | case4 x h0 h8 len hdec hp =>
    rintro e h rfl
    rw [readAllRecords, dif_neg h0, dif_neg h8] at h
    simp only [hdec, dif_pos hp] at h
    simp at h
  | case5 x h0 h8 len hdec hp e2 hrec ih =>
    intro e h
    rw [readAllRecords, dif_neg h0, dif_neg h8] at h
    simp only [hdec, dif_neg hp, hrec, Except.error.injEq] at h
    subst h
    exact ih e2 hrec
  | case6 x h0 h8 len hdec hp rs hrec ih =>
    intro e h
    rw [readAllRecords, dif_neg h0, dif_neg h8] at h
    simp only [hdec, dif_neg hp, hrec] at h
    simp at h

theorem readContainer_not_ml (src : List Nat) (em : Bool) (e : ReadError)
    (h : readContainer src em = .error e) : e ≠ .MalformedLength := by
  rw [readContainer] at h
  cases em with
  | false =>
    simp only [Bool.false_eq_true, if_false] at h
    cases hr : readAllRecords src with
    | error e2 =>
      simp only [hr, Except.error.injEq] at h
      subst h
      exact readAllRecords_not_ml src e2 hr
    | ok rs => simp only [hr] at h; simp at h
  | true =>
    simp only [if_true] at h
    cases hr : read_record src with
    | error e2 =>
      simp only [hr, Except.error.injEq] at h
      subst h
      exact read_record_not_ml src e2 hr
    | ok pr =>
      obtain ⟨o, rest⟩ := pr
      cases o with
      | none =>
        simp only [hr, Except.error.injEq] at h
        subst h
        decide
      | some md =>
        simp only [hr] at h
        cases hh : readAllRecords rest with
        | error e2 =>
          simp only [hh, Except.error.injEq] at h
          subst h
          exact readAllRecords_not_ml rest e2 hh
        | ok rs => simp only [hh] at h; simp at h

/-! ### Helper lemmas about the reader at clean end-of-stream and the writer -/

theorem nthRead_nil (n : Nat) : nthRead [] n = .ok (none, []) := by
  induction n with
  | zero => rfl
  | succ n ih =>
    rw [nthRead]
    simp only [read_record]
    simpa using ih

theorem writeRecords_ok : ∀ (rs : List (List Nat)) (h : WriteHandle), h.closed = false →
    ∃ h', writeRecords h rs = .ok h' ∧ h'.buf = h.buf ++ writeFrames rs ∧ h'.closed = false := by
  intro rs
  induction rs with
  | nil => intro h hc; exact ⟨h, rfl, by simp [writeFrames], hc⟩
  | cons r rs ih =>
    intro h hc
    rw [writeRecords, write_record, if_neg (by simp [hc])]
    obtain ⟨h', hw, hbuf, hcl⟩ :=
      ih { h with buf := h.buf ++ encode_frame r, recordWritten := true } (by simpa using hc)
    refine ⟨h', by simpa using hw, ?_, hcl⟩
    rw [hbuf]
    simp [writeFrames_cons]

theorem runWrites_eq (m : Option (List Nat)) (rs : List (List Nat)) :
    runWrites m rs = .ok (writeContainer m rs) := by
  cases m with
  | none =>
    rw [runWrites]
    obtain ⟨h', hw, hbuf, _⟩ := writeRecords_ok rs open_for_write rfl
    rw [hw]
    simp [close, hbuf, writeContainer, open_for_write]
  | some md =>
    rw [runWrites, write_metadata]
    simp only [open_for_write, Bool.false_eq_true, if_false, Bool.or_self]
    obtain ⟨h', hw, hbuf, _⟩ := writeRecords_ok rs ⟨[] ++ encode_frame md, true, false, false⟩ rfl
    rw [hw]
    simp only [close, hbuf]
    simp [writeContainer]

/-! ### The claimed properties -/

/-- C1: for every sequence of byte-string records (including the empty
sequence) and every optional metadata byte string, writing the metadata (if
present) and then the records through the writer contract and reading the
produced bytes back through the reader contract with matching
`expect_metadata` yields exactly the metadata (if present) followed by the
records, in the same order, byte-for-byte. -/
theorem round_trip (m : Option (List Nat)) (rs : List (List Nat)) (bytes : List Nat)
    (hm : ∀ md ∈ m, md.length < 2 ^ 64) (hr : ∀ r ∈ rs, r.length < 2 ^ 64)
    (hw : runWrites m rs = .ok bytes) :
    readContainer bytes m.isSome = .ok (m, rs) := by
  have hpure := runWrites_eq m rs
  rw [hw] at hpure
  injection hpure with hb
  rw [hb]
  exact readContainer_rt m rs hm hr

theorem round_trip_witness :
    (∀ md ∈ (some [109] : Option (List Nat)), md.length < 2 ^ 64) ∧
    (∀ r ∈ [[65], [], [66, 66]], List.length r < 2 ^ 64) ∧
    runWrites (some [109]) [[65], [], [66, 66]]
      = .ok (writeContainer (some [109]) [[65], [], [66, 66]]) ∧
    readContainer (writeContainer (some [109]) [[65], [], [66, 66]]) true
      = .ok (some [109], [[65], [], [66, 66]]) :=
  ⟨by intro md hmd; simp at hmd; subst hmd; norm_num,
   by intro r hr; fin_cases hr <;> norm_num,
   by rfl,
   round_trip (some [109]) [[65], [], [66, 66]] _
     (by intro md hmd; simp at hmd; subst hmd; norm_num)
     (by intro r hr; fin_cases hr <;> norm_num)
     (by rfl)⟩

/-- C2: truncating a well-formed container at a byte offset strictly between
two frame boundaries makes the reader fail with `TruncatedLength` or
`TruncatedPayload`; it never succeeds silently and never returns a partial
payload as a record. -/
theorem truncation_detected (rs : List (List Nat)) (k : Nat)
    (hlen : ∀ r ∈ rs, r.length < 2 ^ 64)
    (hk : k < (writeContainer none rs).length)
    (hb : k ∉ frameBoundaries rs) :
    readContainer ((writeContainer none rs).take k) false = .error .TruncatedLength ∨
    readContainer ((writeContainer none rs).take k) false = .error .TruncatedPayload := by
  have h1 : writeContainer none rs = writeFrames rs := rfl
  rw [h1] at hk ⊢
  rcases trunc_frames rs k hlen hk hb with h2 | h2
  · left
    rw [readContainer]
    simp only [Bool.false_eq_true, if_false, h2]
  · right
    rw [readContainer]
    simp only [Bool.false_eq_true, if_false, h2]

theorem truncation_detected_witness :
    (∀ r ∈ [[65]], List.length r < 2 ^ 64) ∧
    3 < (writeContainer none [[65]]).length ∧
    3 ∉ frameBoundaries [[65]] ∧
    (readContainer ((writeContainer none [[65]]).take 3) false = .error .TruncatedLength ∨
     readContainer ((writeContainer none [[65]]).take 3) false = .error .TruncatedPayload) :=
  ⟨by intro r hr; simp at hr; subst hr; norm_num,
   by decide, by decide,
   truncation_detected [[65]] 3
     (by intro r hr; simp at hr; subst hr; norm_num) (by decide) (by decide)⟩

/-- C3: writing metadata `b"meta"` then the records `b"AAA"`, `b""`,
`b"CCCCCC"` to an empty sink produces exactly the 8-byte little-endian
length prefixes `04..`, `03..`, `00..`, `06..` interleaved with the
payloads, and reading those bytes back with `expect_metadata = true` yields
the metadata, then the three records in order, then end-of-stream. -/
theorem concrete_scenario :
    runWrites (some [109, 101, 116, 97]) [[65, 65, 65], [], [67, 67, 67, 67, 67, 67]]
      = .ok ([4, 0, 0, 0, 0, 0, 0, 0] ++ [109, 101, 116, 97]
          ++ [3, 0, 0, 0, 0, 0, 0, 0] ++ [65, 65, 65]
          ++ [0, 0, 0, 0, 0, 0, 0, 0]
          ++ [6, 0, 0, 0, 0, 0, 0, 0] ++ [67, 67, 67, 67, 67, 67]) ∧
    readContainer ([4, 0, 0, 0, 0, 0, 0, 0] ++ [109, 101, 116, 97]
          ++ [3, 0, 0, 0, 0, 0, 0, 0] ++ [65, 65, 65]
          ++ [0, 0, 0, 0, 0, 0, 0, 0]
          ++ [6, 0, 0, 0, 0, 0, 0, 0] ++ [67, 67, 67, 67, 67, 67]) true
      = .ok (some [109, 101, 116, 97], [[65, 65, 65], [], [67, 67, 67, 67, 67, 67]]) := by
  constructor
  · rfl
  · have he : ([4, 0, 0, 0, 0, 0, 0, 0] ++ [109, 101, 116, 97]
          ++ [3, 0, 0, 0, 0, 0, 0, 0] ++ [65, 65, 65]
          ++ [0, 0, 0, 0, 0, 0, 0, 0]
          ++ [6, 0, 0, 0, 0, 0, 0, 0] ++ [67, 67, 67, 67, 67, 67] : List Nat)
        = writeContainer (some [109, 101, 116, 97]) [[65, 65, 65], [], [67, 67, 67, 67, 67, 67]] := by
      rfl
    rw [he]
    exact readContainer_rt (some [109, 101, 116, 97]) [[65, 65, 65], [], [67, 67, 67, 67, 67, 67]]
      (by intro md hmd; simp at hmd; subst hmd; norm_num)
      (by intro r hr; fin_cases hr <;> norm_num)

/-- C4: for every payload with length at most `2 ^ 64 - 1`, decoding the
first 8 bytes of its frame recovers exactly its length, and the frame is 8
bytes longer than the payload. -/
theorem length_fidelity (p : List Nat) (h : p.length ≤ 2 ^ 64 - 1) :
    decode_length_prefix ((encode_frame p).take 8) = .ok p.length ∧
    (encode_frame p).length = 8 + p.length := by
  have h' : p.length < 2 ^ 64 := by omega
  constructor
  · have ht : (encode_frame p).take 8 = length_prefix p.length := by
      simpa using encode_frame_take8 p []
    rw [ht, decode_lp _ h']
  · exact encode_frame_length p

theorem length_fidelity_witness :
    List.length [7, 7, 7] ≤ 2 ^ 64 - 1 ∧
    ( decode_length_prefix ((encode_frame [7, 7, 7]).take 8) = .ok (List.length [7, 7, 7]) ∧
     (encode_frame [7, 7, 7]).length = 8 + List.length [7, 7, 7]) :=
  ⟨by norm_num, length_fidelity [7, 7, 7] (by norm_num)⟩

/-- C5: on a read handle whose source is exhausted exactly at a frame
boundary (zero bytes available where a length prefix would begin),
`read_record` returns the end-of-stream sentinel, and every further
`read_record` call returns the same sentinel again without error. -/
theorem clean_eof_idempotent (src : List Nat) (h : src.length = 0) :
    read_record src = .ok (none, src) ∧ ∀ n, nthRead src n = .ok (none, src) := by
  have hs : src = [] := List.length_eq_zero.mp h
  subst hs
  exact ⟨rfl, nthRead_nil⟩

theorem clean_eof_idempotent_witness :
    List.length ([] : List Nat) = 0 ∧ nthRead [] 3 = .ok (none, []) :=
  ⟨rfl, (clean_eof_idempotent [] rfl).2 3⟩

/-- C6: `write_metadata` may be called at most once per write handle and
only before any `write_record`: after a successful `write_metadata`, or
after any `write_record`, a further `write_metadata` fails with
`ProtocolViolation` (and, the call returning an error and no new handle, no
bytes are framed for the rejected call). -/
theorem write_metadata_discipline (h h' : WriteHandle) (m m2 r : List Nat) :
    (write_metadata h m = .ok h' → write_metadata h' m2 = .error .ProtocolViolation) ∧
    (write_record h r = .ok h' → write_metadata h' m2 = .error .ProtocolViolation) := by
  constructor
  · intro hw
    rw [write_metadata] at hw
    split_ifs at hw with hc hm2
    simp only [Except.ok.injEq] at hw
    subst hw
    rw [write_metadata]
    simp [hc]
  · intro hw
    rw [write_record] at hw
    split_ifs at hw with hc
    simp only [Except.ok.injEq] at hw
    subst hw
    rw [write_metadata]
    simp [hc]

theorem write_metadata_discipline_witness :
    write_metadata open_for_write [109] = .ok ⟨[1, 0, 0, 0, 0, 0, 0, 0, 109], true, false, false⟩ ∧
    write_metadata ⟨[1, 0, 0, 0, 0, 0, 0, 0, 109], true, false, false⟩ [110]
      = .error .ProtocolViolation :=
  ⟨by rfl,
   (write_metadata_discipline open_for_write
     ⟨[1, 0, 0, 0, 0, 0, 0, 0, 109], true, false, false⟩ [109] [110] []).1 (by rfl)⟩

/-- C7: `decode_length_prefix` fails, with `MalformedLength`, exactly when
its input buffer is not a valid 8-byte length prefix; and through the
stream orchestration's own read discipline (which reads the prefix as 8
bytes and handles the 0-byte and 1-to-7-byte shortfalls itself) the
`MalformedLength` branch is never reached: no reader error is ever
`MalformedLength`. -/
theorem malformed_length_defensive :
    (∀ b : List Nat, decode_length_prefix b = .error .MalformedLength ↔ b.length ≠ 8) ∧
    (∀ src e, read_record src = .error e → e ≠ .MalformedLength) ∧
    (∀ src em e, readContainer src em = .error e → e ≠ .MalformedLength) := by
  refine ⟨?_, read_record_not_ml, readContainer_not_ml⟩
  intro b
  rw [ decode_length_prefix]
  split_ifs with hb
  · simp [hb]
  · simp [hb]

theorem malformed_length_defensive_witness :
    ( decode_length_prefix [1, 2, 3] = .error .MalformedLength ↔ List.length [1, 2, 3] ≠ 8) ∧
    (read_record [5] = .error .TruncatedLength ∧
     ReadError.TruncatedLength ≠ ReadError.MalformedLength) :=
  ⟨malformed_length_defensive.1 [1, 2, 3],
   ⟨by rfl, malformed_length_defensive.2.1 [5] .TruncatedLength (by rfl)⟩⟩

/-- C8: metadata frames and record frames are byte-identical on the wire:
the container written with metadata `m` and records `rs` equals, byte for
byte, the container written with no metadata and records `m :: rs`; and a
reader opened with `expect_metadata = false` on the metadata-bearing
container returns `m` as its first record. -/
theorem metadata_frame_transparent (m : List Nat) (rs : List (List Nat))
    (hm : m.length < 2 ^ 64) (hr : ∀ r ∈ rs, r.length < 2 ^ 64) :
    writeContainer (some m) rs = writeContainer none (m :: rs) ∧
    readContainer (writeContainer (some m) rs) false = .ok (none, m :: rs) := by
  have heq : writeContainer (some m) rs = writeContainer none (m :: rs) := by
    rw [writeContainer, writeContainer, writeFrames_cons]
    simp
  refine ⟨heq, ?_⟩
  rw [heq]
  have hall : ∀ r ∈ m :: rs, List.length r < 2 ^ 64 := by
    intro x hx
    rcases List.mem_cons.mp hx with rfl | hx'
    · exact hm
    · exact hr x hx'
  have hrt := readContainer_rt none (m :: rs) (by intro md hmd; simp at hmd) hall
  simpa using hrt

theorem metadata_frame_transparent_witness :
    List.length [9] < 2 ^ 64 ∧
    (writeContainer (some [9]) [[8]] = writeContainer none [[9], [8]] ∧
     readContainer (writeContainer (some [9]) [[8]]) false = .ok (none, [[9], [8]])) :=
  ⟨by norm_num,
   metadata_frame_transparent [9] [[8]] (by norm_num)
     (by intro r hr; simp at hr; subst hr; norm_num)⟩

/-- C9: a zero-length record frame is never mistaken for end-of-stream: on
a source holding the frame of the empty record followed by anything,
`read_record` returns the empty record (not the sentinel) and leaves the
cursor at the following frame, so reading continues. -/
theorem empty_record_not_eof : ∀ rest : List Nat,
    read_record (encode_frame [] ++ rest) = .ok (some [], rest) :=
  fun rest => read_record_frame [] rest (by norm_num)

/-- C10: writing is deterministic: a complete writer session over an empty
sink is a pure function of the metadata (if any) and the record sequence —
its byte stream is exactly `writeContainer m rs`, with no dependence on any
other input, so two writes of the same inputs produce identical bytes. -/
theorem writer_deterministic (m : Option (List Nat)) (rs : List (List Nat)) :
    runWrites m rs = .ok (writeContainer m rs) :=
  runWrites_eq m rs

end Acton
